import Mathlib

/-!
Shallow embedding of the Taproot Assets browser extension (store.js,
websocket.manager.js, asset.service.js, index.js and the DataUtils file)
for checking the natural-language specification against the code.

JavaScript objects are modelled as insertion-ordered association lists of
string-keyed values (`Record`); property reads on a missing key yield
`Val.undef`, matching JavaScript `undefined`.  Numbers are modelled as `Int`
(the code only manipulates integral amounts; NaN/float corner cases are out
of scope of the claims).  Each definition is translated from the source file
named in its doc comment.
-/

/-- JavaScript values as they occur in the store's records. -/
inductive Val where
  | undef : Val
  | null : Val
  | bool : Bool → Val
  | num : Int → Val
  | str : String → Val
deriving DecidableEq, Repr

/-- JavaScript truthiness for `Val` (`undefined`, `null`, `false`, `0`, `""`
are falsy). -/
def Val.truthy : Val → Bool
  | .undef => false
  | .null => false
  | .bool b => b
  | .num n => n != 0
  | .str s => s != ""

/-- A JavaScript object: insertion-ordered association list of properties. -/
abbrev Record := List (String × Val)

/-- Property read, `r[k]`: first binding wins; missing keys read as
`undefined`. -/
def getField : Record → String → Val
  | [], _ => Val.undef
  | (k, v) :: r, key => if k = key then v else getField r key

/-- Property write, `r[k] = v`: overwrite the first binding in place, or
append a new property at the end (JavaScript insertion order). -/
def setField : Record → String → Val → Record
  | [], key, v => [(key, v)]
  | (k, w) :: r, key, v =>
      if k = key then (k, v) :: r else (k, w) :: setField r key v

/-- Spread merge `{...a, ...b}`: start from `a` and write each property of
`b` in order. -/
def mergeRecords (a b : Record) : Record :=
  b.foldl (fun acc kv => setField acc kv.1 kv.2) a

/-- The keys of a record, in insertion order (`Object.keys`). -/
def recordKeys (r : Record) : List String := r.map Prod.fst

/-- First index at which a predicate holds (`Array.prototype.findIndex`,
with `none` for `-1`). -/
def findIndex (p : α → Bool) : List α → Option Nat
  | [] => none
  | a :: l => if p a then some 0 else (findIndex p l).map (· + 1)

/-- Erase the presentation-marker properties (`_isNew`, `_statusChanged`,
`_previousStatus`) from a record. -/
def eraseMarkers (r : Record) : Record :=
  r.filter (fun kv =>
    kv.1 != "_isNew" && kv.1 != "_statusChanged" && kv.1 != "_previousStatus")

/-- store.js `addInvoice`, branch where the id is already present: mark a
status change on the incoming record, which then replaces the stored one
wholesale (`this.state.invoices[index] = invoice`). -/
def replaceWithStatusMarkers (stored incoming : Record) : Record :=
  if getField stored "status" != getField incoming "status" then
    setField (setField incoming "_previousStatus" (getField stored "status"))
      "_statusChanged" (Val.bool true)
  else incoming

/-- store.js `updateInvoice`/`updatePayment`, branch where the id is
present: if `changes.status` is truthy and differs from the stored status,
write the markers onto `changes`; the result is shallow-merged over the
stored record. -/
def changesWithStatusMarkers (stored changes : Record) : Record :=
  if (getField changes "status").truthy
      && (getField stored "status" != getField changes "status") then
    setField (setField changes "_previousStatus" (getField stored "status"))
      "_statusChanged" (Val.bool true)
  else changes

/-- store.js `addInvoice` (lines 193-214): upsert by `id`; replace the
stored record (with status markers) when present, otherwise prepend the
record marked `_isNew`. -/
def addInvoice (invoices : List Record) (invoice : Record) : List Record :=
  match findIndex (fun i => getField i "id" == getField invoice "id") invoices with
  | some index =>
      invoices.set index
        (replaceWithStatusMarkers (invoices.getD index []) invoice)
  | none => setField invoice "_isNew" (Val.bool true) :: invoices

/-- store.js `addPayment` (lines 239-260): identical body to `addInvoice`,
acting on the payments collection. -/
def addPayment (payments : List Record) (payment : Record) : List Record :=
  match findIndex (fun p => getField p "id" == getField payment "id") payments with
  | some index =>
      payments.set index
        (replaceWithStatusMarkers (payments.getD index []) payment)
  | none => setField payment "_isNew" (Val.bool true) :: payments

/-- store.js `updateInvoice` (lines 216-230): merge `changes` over the
record with the given id, marking a status change when the incoming truthy
status differs. -/
def updateInvoice (invoices : List Record) (invoiceId : Val) (changes : Record) :
    List Record :=
  match findIndex (fun i => getField i "id" == invoiceId) invoices with
  | some index =>
      let stored := invoices.getD index []
      invoices.set index (mergeRecords stored (changesWithStatusMarkers stored changes))
  | none => invoices

/-- store.js `updatePayment` (lines 262-276): identical body to
`updateInvoice`, acting on the payments collection. -/
def updatePayment (payments : List Record) (paymentId : Val) (changes : Record) :
    List Record :=
  match findIndex (fun p => getField p "id" == paymentId) payments with
  | some index =>
      let stored := payments.getD index []
      payments.set index (mergeRecords stored (changesWithStatusMarkers stored changes))
  | none => payments

/-- A record that carries none of the store's presentation-marker fields. -/
def noMarkers (r : Record) : Prop :=
  "_isNew" ∉ recordKeys r ∧ "_statusChanged" ∉ recordKeys r ∧
    "_previousStatus" ∉ recordKeys r

instance (r : Record) : Decidable (noMarkers r) := by
  unfold noMarkers
  infer_instance


/-! DataUtils (src/unnamed/part_000): transaction filtering, combination
and CSV export. -/

/-- JavaScript `String.prototype.toLowerCase` (ASCII-adequate model). -/
def toLowerStr (s : String) : String := String.mk (s.data.map Char.toLower)

/-- Whether `needle` starts `hay` (helper for the substring check). -/
def leadsWith : List Char → List Char → Bool
  | [], _ => true
  | _ :: _, [] => false
  | a :: as, b :: bs => a == b && leadsWith as bs

/-- JavaScript `String.prototype.includes`. -/
def strContains (hay needle : String) : Bool :=
  (List.range (hay.data.length + 1)).any (fun i => leadsWith needle.data (hay.data.drop i))

/-- Truthiness of a nullable string (`tx.memo && ...`). -/
def optTruthy : Option String → Bool
  | none => false
  | some s => s != ""

/-- A combined transaction row as consumed by `DataUtils.filterTransactions`;
`created_at` is modelled as a UTC timestamp in milliseconds. -/
structure Tx where
  direction : String
  status : String
  memo : Option String
  payment_hash : Option String
  created_at : Int
deriving DecidableEq, Repr

/-- The `filters` argument: direction/status, with `''` or `'all'` meaning
inactive. -/
structure TxFilters where
  direction : String
  status : String
deriving DecidableEq, Repr

/-- The `searchData` argument. -/
structure SearchData where
  searchText : String
deriving DecidableEq, Repr

/-- The `dateRange` argument; `fromDay`/`toDay` are calendar-day numbers
(the code receives `YYYY-MM-DD` strings and parses them with `new Date`).
The embedding fixes the host timezone to UTC, so the parsed from-bound is
the day's 00:00:00.000 and `setHours(23,59,59,999)` yields 23:59:59.999 of
the to-day. -/
structure DateRange where
  fromDay : Option Nat
  toDay : Option Nat
deriving DecidableEq, Repr

/-- Milliseconds of `00:00:00.000` of a calendar day (UTC). -/
def dayStartMs (d : Nat) : Int := (d : Int) * 86400000

/-- Milliseconds of `23:59:59.999` of a calendar day (UTC). -/
def dayEndMs (d : Nat) : Int := (d : Int) * 86400000 + 86399999

/-- A JavaScript argument that is expected to be an array: an actual array,
`null`/`undefined`, or some other non-array value. -/
inductive JsArg (α : Type) where
  | arr : List α → JsArg α
  | nullish : JsArg α
  | nonArray : JsArg α
deriving DecidableEq, Repr

/-- Stage 1 of `filterTransactions`: the direction filter
(`filters?.direction && filters.direction !== 'all'`). -/
def applyDirectionFilter (filters : Option TxFilters) (result : List Tx) : List Tx :=
  match filters with
  | some f =>
      if f.direction != "" && f.direction != "all" then
        result.filter (fun tx => tx.direction == f.direction)
      else result
  | none => result

/-- Stage 2 of `filterTransactions`: the status filter. -/
def applyStatusFilter (filters : Option TxFilters) (result : List Tx) : List Tx :=
  match filters with
  | some f =>
      if f.status != "" && f.status != "all" then
        result.filter (fun tx => tx.status == f.status)
      else result
  | none => result

/-- Stage 3 of `filterTransactions`: the free-text filter against memo and
payment hash (both lowercased). -/
def applySearchFilter (searchData : Option SearchData) (result : List Tx) : List Tx :=
  match searchData with
  | some sd =>
      if sd.searchText != "" then
        result.filter (fun tx =>
          (optTruthy tx.memo &&
            strContains (toLowerStr (tx.memo.getD "")) (toLowerStr sd.searchText)) ||
          (optTruthy tx.payment_hash &&
            strContains (toLowerStr (tx.payment_hash.getD ""))
              (toLowerStr sd.searchText)))
      else result
  | none => result

/-- Stage 4 of `filterTransactions`: the date-range filter
(`txDate < fromDate` fails the from-bound, `txDate > toDate` fails the
to-bound, checked only when `matches` is still true). -/
def applyDateFilter (dateRange : Option DateRange) (result : List Tx) : List Tx :=
  match dateRange with
  | some dr =>
      if dr.fromDay.isSome || dr.toDay.isSome then
        result.filter (fun tx =>
          (match dr.fromDay with
           | some d => !(tx.created_at < dayStartMs d)
           | none => true) &&
          (match dr.toDay with
           | some d => !(tx.created_at > dayEndMs d)
           | none => true))
      else result
  | none => result

/-- DataUtils `filterTransactions` (part_000 lines 278-327): guard against
non-array input, then apply the four filter stages in order. -/
def filterTransactions (transactions : JsArg Tx) (filters : Option TxFilters)
    (searchData : Option SearchData) (dateRange : Option DateRange) : List Tx :=
  match transactions with
  | .nullish => []
  | .nonArray => []
  | .arr txs =>
      applyDateFilter dateRange
        (applySearchFilter searchData
          (applyStatusFilter filters
            (applyDirectionFilter filters txs)))

/-- Modelled from the spec (for the C5 refinement comparison): the
conjunction of all active filters — direction equality, status equality,
case-insensitive substring match against memo or payment hash, and
`created_at` within the inclusive range from 00:00:00.000 of the from-day
to 23:59:59.999 of the to-day. -/
def claimedFilterPred (filters : Option TxFilters) (searchData : Option SearchData)
    (dateRange : Option DateRange) (tx : Tx) : Bool :=
  (match filters with
   | some f =>
       if f.direction != "" && f.direction != "all" then tx.direction == f.direction
       else true
   | none => true) &&
  ((match filters with
   | some f =>
       if f.status != "" && f.status != "all" then tx.status == f.status
       else true
   | none => true) &&
  ((match searchData with
   | some sd =>
       if sd.searchText != "" then
         (optTruthy tx.memo &&
           strContains (toLowerStr (tx.memo.getD "")) (toLowerStr sd.searchText)) ||
         (optTruthy tx.payment_hash &&
           strContains (toLowerStr (tx.payment_hash.getD ""))
             (toLowerStr sd.searchText))
       else true
   | none => true) &&
  (match dateRange with
   | some dr =>
       (match dr.fromDay with
        | some d => decide (dayStartMs d ≤ tx.created_at)
        | none => true) &&
       (match dr.toDay with
        | some d => decide (tx.created_at ≤ dayEndMs d)
        | none => true)
   | none => true)))

/-- Descending insertion by `created_at` (model of the comparator
`(a, b) => new Date(b.created_at) - new Date(a.created_at)`). -/
def insertByDateDesc (a : Tx) : List Tx → List Tx
  | [] => [a]
  | b :: bs =>
      if a.created_at > b.created_at then a :: b :: bs
      else b :: insertByDateDesc a bs

/-- Sort transactions most recent first. -/
def sortByDateDesc : List Tx → List Tx
  | [] => []
  | a :: l => insertByDateDesc a (sortByDateDesc l)

/-- DataUtils `combineTransactions` (part_000 lines 197-210): substitute
`[]` for non-array arguments, map the entries through `mapTransaction`
(whose date/label formatting depends on the host clock and UI library and
is abstracted as the parameters `mapInvoice`/`mapPayment`), then sort by
`created_at`, most recent first. -/
def combineTransactions (invoices payments : JsArg Tx)
    (mapInvoice mapPayment : Tx → Tx) : List Tx :=
  let safeInvoices := match invoices with | .arr l => l | _ => []
  let safePayments := match payments with | .arr l => l | _ => []
  sortByDateDesc (safeInvoices.map mapInvoice ++ safePayments.map mapPayment)

/-- A CSV input row: field names with nullable string values (`none`
models `null`/`undefined`, which the code renders as `''`). -/
abbrev CSVRow := List (String × Option String)

/-- Reading `row[header]`, rendered as the code does: missing or null values
become the empty string. -/
def rowValue (row : CSVRow) (header : String) : String :=
  match row.find? (fun kv => kv.1 == header) with
  | some (_, some v) => v
  | some (_, none) => ""
  | none => ""

/-- Check `value.includes(',') || value.includes('"') || value.includes('\n')`. -/
def needsQuoting (value : String) : Bool :=
  strContains value "," || strContains value "\"" || strContains value "\n"

/-- Model of `value.replace` doubling every double quote. -/
def doubleQuotes (value : String) : String :=
  String.mk (value.data.foldr
    (fun c acc => if c = '"' then '"' :: '"' :: acc else c :: acc) [])

/-- The per-value escaping step of `DataUtils.downloadCSV` (part_000 lines
361-369). -/
def escapeCSVValue (value : String) : String :=
  if needsQuoting value then "\"" ++ doubleQuotes value ++ "\"" else value

/-- One CSV data line: the row's values in header order, escaped and
comma-joined. -/
def csvLine (headers : List String) (row : CSVRow) : String :=
  String.intercalate "," (headers.map (fun h => escapeCSVValue (rowValue row h)))

/-- The CSV content built by `DataUtils.downloadCSV` (part_000 lines
352-371): the first row's field names comma-joined, then one line per row. -/
def csvContent (rows : List CSVRow) : String :=
  match rows with
  | [] => ""
  | r0 :: _ =>
      let headers := r0.map Prod.fst
      rows.foldl (fun acc row => acc ++ csvLine headers row ++ "\n")
        (String.intercalate "," headers ++ "\n")

/-! asset.service.js and index.js: invoice-amount validation. -/

/-- The `channel_info` as read by `getMaxReceivableAmount`; `none` fields model
`undefined`. -/
structure ChannelInfo where
  capacity : Option Int
  local_balance : Option Int
deriving DecidableEq, Repr

/-- An asset as read by the invoice dialog. -/
structure Asset where
  asset_id : String
  channel_info : Option ChannelInfo
  user_balance : Option Int
deriving DecidableEq, Repr

/-- asset.service.js `getMaxReceivableAmount` (lines 174-186): capacity
minus local balance when both are defined, otherwise 0. -/
def getMaxReceivableAmount (asset : Option Asset) : Int :=
  match asset with
  | none => 0
  | some a =>
      match a.channel_info with
      | none => 0
      | some ci =>
          match ci.capacity, ci.local_balance with
          | some totalCapacity, some localBalance => totalCapacity - localBalance
          | _, _ => 0

/-- index.js `maxInvoiceAmount` (lines 140-145): 0 without a selected
asset, else the asset's max receivable amount. -/
def maxInvoiceAmount (selectedAsset : Option Asset) : Int :=
  match selectedAsset with
  | none => 0
  | some a => getMaxReceivableAmount (some a)

/-- index.js `isInvoiceAmountValid` (lines 148-151): false without a
selected asset, else requested amount ≤ the max invoice amount. -/
def isInvoiceAmountValid (selectedAsset : Option Asset) (amount : Int) : Bool :=
  match selectedAsset with
  | none => false
  | some _ => amount ≤ maxInvoiceAmount selectedAsset

/-! PaymentService (websocket.manager.js file, PaymentService section) and
the index.js pay flow: internal-payment error routing. -/

/-- The error object observed in `payInvoice`'s catch block
(`error.response?.data?.detail`, the `isInternalPayment` mark and the
user-facing message). -/
structure PayError where
  responseDetail : Option String
  isInternalPayment : Bool
  message : String
deriving DecidableEq, Repr

/-- PaymentService `payInvoice` catch block (lines 775-790): when the
backend detail mentions `'internal payment'` or `'own invoice'`, rethrow
the error marked `isInternalPayment = true` with the explanatory message;
otherwise rethrow unchanged. -/
def markInternalPayment (e : PayError) : PayError :=
  match e.responseDetail with
  | some detail =>
      if detail != "" &&
          (strContains detail "internal payment" || strContains detail "own invoice") then
        { e with
          isInternalPayment := true,
          message := "This invoice belongs to another user on this node. System will process it as an internal payment." }
      else e
  | none => e

/-- What the index.js `payInvoice` catch handler (lines 624-660) does with
an error thrown by the service: one automatic fallback call through
`processInternalPayment`, or surfacing the error via the notification
path. -/
inductive PayFlowAction where
  | fallbackInternal : PayFlowAction
  | surfaceError : PayFlowAction
deriving DecidableEq, Repr

/-- index.js `payInvoice` error branch: dispatch on `error.isInternalPayment`. -/
def payFlowOnError (e : PayError) : PayFlowAction :=
  if e.isInternalPayment then .fallbackInternal else .surfaceError

/-- Calls issued by the index.js error branch: the number of
internal-payment fallback calls and whether the failure is surfaced to the
user as a payment error. -/
def payFlowCalls (e : PayError) : Nat × Bool :=
  match payFlowOnError e with
  | .fallbackInternal => (1, false)
  | .surfaceError => (0, true)

/-! store.js `updateAsset` and the balance updates performed by
`PaymentService.payInvoice` / `processInternalPayment` on a successful
pay response. -/

/-- store.js `updateAsset` (lines 171-178) specialised to the only call
site shape `{ user_balance: v }`: merge the new balance into the asset
found by id, if any. -/
def updateAssetBalance (assets : List Asset) (assetId : String) (v : Int) :
    List Asset :=
  match findIndex (fun a => a.asset_id == assetId) assets with
  | some index =>
      assets.set index { assets.getD index ⟨"", none, none⟩ with user_balance := some v }
  | none => assets

/-- PaymentService `payInvoice` success path (lines 732-751): deduct the
paid `asset_amount` from the caller-supplied asset snapshot's
`user_balance || 0`, clamp at 0, and store it under the snapshot's
asset id. -/
def payInvoiceBalanceUpdate (assets : List Asset) (assetData : Asset)
    (assetAmount : Int) : List Asset :=
  let newBalance := (assetData.user_balance.getD 0) - assetAmount
  updateAssetBalance assets assetData.asset_id (max 0 newBalance)

/-- PaymentService `processInternalPayment` (lines 823-847): look the
asset up in the store by the response's asset id, deduct the paid amount
from the stored `user_balance || 0`, clamp at 0. -/
def internalPaymentBalanceUpdate (assets : List Asset) (responseAssetId : String)
    (assetAmount : Int) : List Asset :=
  match assets.find? (fun a => a.asset_id == responseAssetId) with
  | some asset =>
      updateAssetBalance assets asset.asset_id
        (max 0 ((asset.user_balance.getD 0) - assetAmount))
  | none => assets

/-! WebSocketManager (websocket.manager.js lines 6-562): connection
lifecycle state machine. -/

/-- Constant `config.maxReconnectAttempts` (line 17). -/
def maxReconnectAttempts : Nat := 5

/-- The manager's mutable state: one presence flag per push channel
(`connections.* !== null`), the `connected` flag, the reconnect-attempt
counter, whether a reconnect timeout is pending
(`reconnectTimeout !== null`), the fallback-polling flag, whether the
polling interval is installed (`pollingInterval !== null`), and whether a
truthy `userId` is set. -/
structure WSState where
  connInvoices : Bool
  connPayments : Bool
  connBalances : Bool
  connected : Bool
  reconnectAttempts : Nat
  reconnectPending : Bool
  fallbackPolling : Bool
  pollingActive : Bool
  userId : Bool
deriving DecidableEq, Repr

/-- The pristine manager state (lines 7-28). -/
def initialWSState : WSState :=
  ⟨false, false, false, false, 0, false, false, false, false⟩

/-- Check `Object.values(this.connections).every(conn => conn === null)`. -/
def allConnectionsDown (s : WSState) : Bool :=
  !s.connInvoices && !s.connPayments && !s.connBalances

/-- Method `_stopFallbackPolling` (lines 482-493). -/
def stopFallbackPolling (s : WSState) : WSState :=
  { s with pollingActive := false, fallbackPolling := false }

/-- Method `closeAll` (lines 519-550): null every connection, clear the reconnect
timeout, stop polling, mark disconnected. -/
def closeAll (s : WSState) : WSState :=
  let s1 := { s with connInvoices := false, connPayments := false,
                     connBalances := false, reconnectPending := false }
  let s2 := stopFallbackPolling s1
  { s2 with connected := false }

/-- Methods `_connectInvoices`/`_connectPayments`/`_connectBalances` (lines
79-136): open the sockets only when a user id is set. -/
def connectChannels (s : WSState) : WSState :=
  if s.userId then
    { s with connInvoices := true, connPayments := true, connBalances := true }
  else s

/-- Method `connect` (lines 50-73). -/
def connect (s : WSState) : WSState :=
  let s1 := closeAll s
  let s2 := { s1 with reconnectAttempts := 0 }
  let s3 := connectChannels s2
  { s3 with connected := true }

/-- Method `_scheduleReconnect` (lines 416-451): clear any pending timeout; stop
once the budget is exhausted, otherwise increment the counter and schedule
one reconnect. -/
def scheduleReconnect (s : WSState) : WSState :=
  let s0 := { s with reconnectPending := false }
  if s0.reconnectAttempts ≥ maxReconnectAttempts then s0
  else { s0 with reconnectAttempts := s0.reconnectAttempts + 1,
                 reconnectPending := true }

/-- Method `_startFallbackPolling` (lines 457-476): a no-op when the flag or the
interval is already set, otherwise set both. -/
def startFallbackPolling (s : WSState) : WSState :=
  if s.fallbackPolling || s.pollingActive then s
  else { s with fallbackPolling := true, pollingActive := true }

/-- The three push channels. -/
inductive Channel where
  | invoices : Channel
  | payments : Channel
  | balances : Channel
deriving DecidableEq, Repr

/-- Assignment `this.connections[type] = null`. -/
def clearChannel (s : WSState) : Channel → WSState
  | .invoices => { s with connInvoices := false }
  | .payments => { s with connPayments := false }
  | .balances => { s with connBalances := false }

/-- Method `_handleConnectionClose` (lines 355-375): null the channel and, when
all channels are down, mark disconnected, schedule a reconnect and start
fallback polling. -/
def handleConnectionClose (ch : Channel) (s : WSState) : WSState :=
  let s1 := clearChannel s ch
  if allConnectionsDown s1 then
    startFallbackPolling (scheduleReconnect { s1 with connected := false })
  else s1

/-- Method `_handleConnectionError` (lines 383-410): state-wise identical to the
close handler (it additionally closes the raw socket object). -/
def handleConnectionError (ch : Channel) (s : WSState) : WSState :=
  handleConnectionClose ch s

/-- The reconnect timeout callback (lines 446-450): fires only while a
timeout is pending, then calls `connect`. -/
def reconnectTimerFire (s : WSState) : WSState :=
  if s.reconnectPending then connect { s with reconnectPending := false } else s

/-- The polling interval callback (lines 472-475) only re-fetches data;
the manager state is unchanged. -/
def pollingTick (s : WSState) : WSState := s

/-- Method `destroy` (lines 555-561). -/
def destroy (s : WSState) : WSState :=
  { closeAll s with userId := false, reconnectAttempts := 0 }

/-- Method `initialize` (lines 34-45): require a truthy user id, then connect. -/
def initializeWS (userId : Bool) (s : WSState) : WSState :=
  if userId then connect { s with userId := true } else s

/-- The events that can hit an initialized manager. -/
inductive WSEvent where
  | close : Channel → WSEvent
  | error : Channel → WSEvent
  | timerFire : WSEvent
  | pollTick : WSEvent
  | connectCall : WSEvent
  | closeAllCall : WSEvent
  | destroyCall : WSEvent
deriving DecidableEq, Repr

/-- One manager transition. -/
def wsStep (e : WSEvent) (s : WSState) : WSState :=
  match e with
  | .close ch => handleConnectionClose ch s
  | .error ch => handleConnectionError ch s
  | .timerFire => reconnectTimerFire s
  | .pollTick => pollingTick s
  | .connectCall => connect s
  | .closeAllCall => closeAll s
  | .destroyCall => destroy s

/-- Run a sequence of events. -/
def runWSEvents (s : WSState) : List WSEvent → WSState
  | [] => s
  | e :: es => runWSEvents (wsStep e s) es

/-- Events other than a manual `connect()`/`closeAll()`/`destroy()`. -/
def isPassiveEvent : WSEvent → Bool
  | .close _ => true
  | .error _ => true
  | .timerFire => true
  | .pollTick => true
  | .connectCall => false
  | .closeAllCall => false
  | .destroyCall => false

/-- The state reached once the reconnect budget is exhausted with fallback
polling on and no pending retry. -/
def exhaustedPollingInv (s : WSState) : Prop :=
  maxReconnectAttempts ≤ s.reconnectAttempts ∧ s.reconnectPending = false ∧
    s.fallbackPolling = true

instance (s : WSState) : Decidable (exhaustedPollingInv s) := by
  unfold exhaustedPollingInv
  infer_instance

/-- Fallback polling is on only while every channel is down and the
manager is marked disconnected. -/
def pollingDownInv (s : WSState) : Prop :=
  s.fallbackPolling = true →
    s.connInvoices = false ∧ s.connPayments = false ∧ s.connBalances = false
      ∧ s.connected = false

instance (s : WSState) : Decidable (pollingDownInv s) := by
  unfold pollingDownInv
  infer_instance

/-! Association-list lemmas used to prove the store's upsert properties. -/

theorem getField_setField_self (r : Record) (k : String) (v : Val) :
    getField (setField r k v) k = v := by
  induction r with
  | nil => simp [setField, getField]
  | cons kv r ih =>
      by_cases h : kv.1 = k <;> simp [setField, getField, h, ih]

theorem getField_setField_ne (r : Record) {k k' : String} (v : Val) (h : k' ≠ k) :
    getField (setField r k v) k' = getField r k' := by
  induction r with
  | nil => simp [setField, getField, Ne.symm h]
  | cons kv r ih =>
      by_cases hk : kv.1 = k
      · subst hk
        simp [setField, getField, Ne.symm h]
      · by_cases hk' : kv.1 = k' <;> simp [setField, getField, hk, hk', ih, h]

theorem setField_eq_self {r : Record} {k : String} {v : Val}
    (hmem : k ∈ recordKeys r) (hval : getField r k = v) : setField r k v = r := by
  induction r with
  | nil => simp [recordKeys] at hmem
  | cons kv r ih =>
      by_cases h : kv.1 = k
      · simp only [getField, h, if_pos rfl] at hval
        cases kv
        simp_all [setField]
      · simp only [recordKeys, List.map_cons, List.mem_cons] at hmem
        rcases hmem with hmem | hmem
        · exact absurd hmem.symm h
        · simp only [getField, h, if_neg, Bool.false_eq_true, if_false] at hval
          simp [setField, h, ih hmem hval]

theorem setField_of_not_mem {r : Record} {k : String} (v : Val)
    (h : k ∉ recordKeys r) : setField r k v = r ++ [(k, v)] := by
  induction r with
  | nil => simp [setField]
  | cons kv r ih =>
      simp only [recordKeys, List.map_cons, List.mem_cons] at h
      push_neg at h
      simp [setField, Ne.symm h.1, ih h.2]

theorem getField_of_not_mem {r : Record} {k : String} (h : k ∉ recordKeys r) :
    getField r k = Val.undef := by
  induction r with
  | nil => rfl
  | cons kv r ih =>
      simp only [recordKeys, List.map_cons, List.mem_cons] at h
      push_neg at h
      simp [getField, Ne.symm h.1, ih h.2]

theorem mem_keys_of_getField_ne_undef {r : Record} {k : String}
    (h : getField r k ≠ Val.undef) : k ∈ recordKeys r := by
  by_contra hmem
  exact h (getField_of_not_mem hmem)

theorem getField_mem_of_mem_keys {r : Record} {k : String}
    (h : k ∈ recordKeys r) : (k, getField r k) ∈ r := by
  induction r with
  | nil => simp [recordKeys] at h
  | cons kv r ih =>
      simp only [recordKeys, List.map_cons, List.mem_cons] at h
      by_cases hk : kv.1 = k
      · cases kv; subst hk; simp [getField]
      · rcases h with h | h
        · exact absurd h.symm hk
        · simp [getField, hk, ih h]

theorem getField_of_mem_nodup {r : Record} {k : String} {v : Val}
    (hnd : (recordKeys r).Nodup) (h : (k, v) ∈ r) : getField r k = v := by
  induction r with
  | nil => simp at h
  | cons kv r ih =>
      simp only [recordKeys, List.map_cons, List.nodup_cons] at hnd
      rcases List.mem_cons.1 h with h | h
      · subst h; simp [getField]
      · have hk : kv.1 ≠ k := by
          intro hkk
          exact hnd.1 (hkk ▸ (List.mem_map.2 ⟨(k, v), h, rfl⟩))
        simp [getField, hk, ih hnd.2 h]

theorem mergeRecords_nil (a : Record) : mergeRecords a [] = a := rfl

theorem mergeRecords_cons (a : Record) (kv : String × Val) (b : Record) :
    mergeRecords a (kv :: b) = mergeRecords (setField a kv.1 kv.2) b := rfl

theorem getField_mergeRecords_of_not_mem {b : Record} {k : String} (a : Record)
    (h : k ∉ recordKeys b) : getField (mergeRecords a b) k = getField a k := by
  induction b generalizing a with
  | nil => rfl
  | cons kv b ih =>
      simp only [recordKeys, List.map_cons, List.mem_cons] at h
      push_neg at h
      rw [mergeRecords_cons, ih _ h.2, getField_setField_ne _ _ h.1]

theorem mem_keys_setField (r : Record) (k k' : String) (v : Val)
    (h : k' ∈ recordKeys r ∨ k' = k) : k' ∈ recordKeys (setField r k v) := by
  induction r with
  | nil =>
      rcases h with h | h
      · simp [recordKeys] at h
      · simp [setField, recordKeys, h]
  | cons kv r ih =>
      by_cases hk : kv.1 = k
      · obtain ⟨k0, v0⟩ := kv
        simp only at hk
        subst hk
        simp only [recordKeys, List.map_cons, List.mem_cons] at h
        have : setField ((k0, v0) :: r) k0 v = (k0, v) :: r := by
          simp [setField]
        rw [this]
        simp only [recordKeys, List.map_cons, List.mem_cons]
        rcases h with (h | h) | h
        · exact Or.inl h
        · exact Or.inr h
        · exact Or.inl h
      · have : setField (kv :: r) k v = kv :: setField r k v := by
          simp [setField, hk]
        rw [this]
        simp only [recordKeys, List.map_cons, List.mem_cons] at h ⊢
        rcases h with (h | h) | h
        · exact Or.inl h
        · exact Or.inr (ih (Or.inl h))
        · exact Or.inr (ih (Or.inr h))

theorem mem_keys_mergeRecords_left {a : Record} {k : String} (b : Record)
    (h : k ∈ recordKeys a) : k ∈ recordKeys (mergeRecords a b) := by
  induction b generalizing a with
  | nil => exact h
  | cons kv b ih =>
      rw [mergeRecords_cons]
      exact ih (mem_keys_setField a kv.1 k kv.2 (Or.inl h))

theorem mem_keys_mergeRecords_right {b : Record} {k : String} (a : Record)
    (h : k ∈ recordKeys b) : k ∈ recordKeys (mergeRecords a b) := by
  induction b generalizing a with
  | nil => simp [recordKeys] at h
  | cons kv b ih =>
      simp only [recordKeys, List.map_cons, List.mem_cons] at h
      rw [mergeRecords_cons]
      rcases h with h | h
      · exact mem_keys_mergeRecords_left b
          (mem_keys_setField a kv.1 k kv.2 (Or.inr h))
      · exact ih _ h

theorem getField_mergeRecords_of_mem_nodup {b : Record} {k : String} (a : Record)
    (hnd : (recordKeys b).Nodup) (h : k ∈ recordKeys b) :
    getField (mergeRecords a b) k = getField b k := by
  induction b generalizing a with
  | nil => simp [recordKeys] at h
  | cons kv b ih =>
      simp only [recordKeys, List.map_cons, List.nodup_cons] at hnd
      simp only [recordKeys, List.map_cons, List.mem_cons] at h
      by_cases hk : kv.1 = k
      · have hnb : k ∉ recordKeys b := hk ▸ hnd.1
        rw [mergeRecords_cons, getField_mergeRecords_of_not_mem _ hnb]
        cases kv
        subst hk
        simp [getField, getField_setField_self]
      · rcases h with h | h
        · exact absurd h.symm hk
        · rw [mergeRecords_cons, ih _ hnd.2 h]
          simp [getField, hk]

theorem mergeRecords_eq_self {a b : Record}
    (h : ∀ kv ∈ b, getField a kv.1 = kv.2 ∧ kv.1 ∈ recordKeys a) :
    mergeRecords a b = a := by
  induction b with
  | nil => rfl
  | cons kv b ih =>
      have hkv := h kv (List.mem_cons_self kv b)
      rw [mergeRecords_cons, setField_eq_self hkv.2 hkv.1]
      exact ih (fun kv' h' => h kv' (List.mem_cons_of_mem kv h'))

theorem findIndex_lt_length {p : α → Bool} {l : List α} {i : Nat}
    (h : findIndex p l = some i) : i < l.length := by
  induction l generalizing i with
  | nil => simp [findIndex] at h
  | cons a l ih =>
      by_cases hp : p a
      · simp only [findIndex, hp, if_pos, Option.some.injEq] at h
        subst h
        simp
      · simp only [findIndex, hp, Bool.false_eq_true, if_false,
          Option.map_eq_some'] at h
        obtain ⟨j, hj, rfl⟩ := h
        have := ih hj
        simp only [List.length_cons]
        omega

theorem findIndex_getD {p : α → Bool} {l : List α} {i : Nat} (d : α)
    (h : findIndex p l = some i) : p (l.getD i d) = true := by
  induction l generalizing i with
  | nil => simp [findIndex] at h
  | cons a l ih =>
      by_cases hp : p a
      · simp only [findIndex, hp, if_pos, Option.some.injEq] at h
        subst h
        simpa [List.getD] using hp
      · simp only [findIndex, hp, Bool.false_eq_true, if_false,
          Option.map_eq_some'] at h
        obtain ⟨j, hj, rfl⟩ := h
        simpa [List.getD] using ih hj

theorem findIndex_set {p : α → Bool} {l : List α} {i : Nat} {v : α}
    (h : findIndex p l = some i) (hv : p v = true) :
    findIndex p (l.set i v) = some i := by
  induction l generalizing i with
  | nil => simp [findIndex] at h
  | cons a l ih =>
      by_cases hp : p a
      · simp only [findIndex, hp, if_pos, Option.some.injEq] at h
        subst h
        simp [List.set, findIndex, hv]
      · simp only [findIndex, hp, Bool.false_eq_true, if_false,
          Option.map_eq_some'] at h
        obtain ⟨j, hj, rfl⟩ := h
        simp [List.set, findIndex, hp, ih hj]

theorem getD_set_self {l : List α} {i : Nat} (v d : α) (h : i < l.length) :
    (l.set i v).getD i d = v := by
  induction l generalizing i with
  | nil => simp at h
  | cons a l ih =>
      cases i with
      | zero => simp [List.set, List.getD]
      | succ j =>
          simp only [List.length_cons] at h
          simpa [List.set, List.getD] using ih (show j < l.length by omega)

theorem Val.truthy_ne_undef {v : Val} (h : v.truthy = true) : v ≠ Val.undef := by
  cases v <;> simp_all [Val.truthy]

theorem eraseMarkers_eq_self {r : Record} (h : noMarkers r) :
    eraseMarkers r = r := by
  apply List.filter_eq_self.mpr
  intro kv hkv
  have hk : kv.1 ∈ recordKeys r := List.mem_map.2 ⟨kv, hkv, rfl⟩
  simp only [Bool.and_eq_true, bne_iff_ne, ne_eq]
  refine ⟨⟨?_, ?_⟩, ?_⟩ <;> intro he
  · exact h.1 (he ▸ hk)
  · exact h.2.1 (he ▸ hk)
  · exact h.2.2 (he ▸ hk)

theorem eraseMarkers_append (a b : Record) :
    eraseMarkers (a ++ b) = eraseMarkers a ++ eraseMarkers b :=
  List.filter_append ..

theorem getField_replaceWithStatusMarkers (stored incoming : Record) {k : String}
    (h1 : k ≠ "_statusChanged") (h2 : k ≠ "_previousStatus") :
    getField (replaceWithStatusMarkers stored incoming) k = getField incoming k := by
  unfold replaceWithStatusMarkers
  split
  · rw [getField_setField_ne _ _ h1, getField_setField_ne _ _ h2]
  · rfl

theorem getField_changesWithStatusMarkers (stored changes : Record) {k : String}
    (h1 : k ≠ "_statusChanged") (h2 : k ≠ "_previousStatus") :
    getField (changesWithStatusMarkers stored changes) k = getField changes k := by
  unfold changesWithStatusMarkers
  split
  · rw [getField_setField_ne _ _ h1, getField_setField_ne _ _ h2]
  · rfl

theorem keys_changesWithStatusMarkers (stored : Record) {changes : Record}
    (h : noMarkers changes) :
    recordKeys (changesWithStatusMarkers stored changes) = recordKeys changes ∨
      recordKeys (changesWithStatusMarkers stored changes) =
        recordKeys changes ++ ["_previousStatus", "_statusChanged"] := by
  unfold changesWithStatusMarkers
  split
  · right
    rw [setField_of_not_mem _ h.2.2]
    have hsc : "_statusChanged" ∉
        recordKeys (changes ++ [("_previousStatus", getField stored "status")]) := by
      simp only [recordKeys, List.map_append, List.mem_append]
      rintro (hc | hc)
      · exact h.2.1 hc
      · simp at hc
    rw [setField_of_not_mem _ hsc]
    simp [recordKeys]
  · left; rfl

theorem eraseMarkers_replaceWithStatusMarkers (stored : Record) {incoming : Record}
    (h : noMarkers incoming) :
    eraseMarkers (replaceWithStatusMarkers stored incoming) = eraseMarkers incoming := by
  unfold replaceWithStatusMarkers
  split
  · rw [setField_of_not_mem _ h.2.2]
    have hsc : "_statusChanged" ∉
        recordKeys (incoming ++ [("_previousStatus", getField stored "status")]) := by
      simp only [recordKeys, List.map_append, List.mem_append]
      rintro (hc | hc)
      · exact h.2.1 hc
      · simp at hc
    rw [setField_of_not_mem _ hsc, List.append_assoc, eraseMarkers_append]
    have : eraseMarkers
        ([("_previousStatus", getField stored "status")] ++
          [("_statusChanged", Val.bool true)]) = [] := rfl
    rw [this, List.append_nil]
  · rfl

theorem replaceWithStatusMarkers_of_status_eq {stored incoming : Record}
    (h : getField stored "status" = getField incoming "status") :
    replaceWithStatusMarkers stored incoming = incoming := by
  unfold replaceWithStatusMarkers
  rw [h, bne_self_eq_false]
  simp

theorem addInvoice_of_findIndex_none {l : List Record} {invoice : Record}
    (h : findIndex (fun i => getField i "id" == getField invoice "id") l = none) :
    addInvoice l invoice = setField invoice "_isNew" (Val.bool true) :: l := by
  unfold addInvoice
  rw [h]

theorem addInvoice_of_findIndex_some {l : List Record} {invoice : Record} {idx : Nat}
    (h : findIndex (fun i => getField i "id" == getField invoice "id") l = some idx) :
    addInvoice l invoice =
      l.set idx (replaceWithStatusMarkers (l.getD idx []) invoice) := by
  unfold addInvoice
  rw [h]

theorem updateInvoice_of_findIndex_none {l : List Record} {invoiceId : Val}
    {changes : Record}
    (h : findIndex (fun i => getField i "id" == invoiceId) l = none) :
    updateInvoice l invoiceId changes = l := by
  unfold updateInvoice
  rw [h]

theorem updateInvoice_of_findIndex_some {l : List Record} {invoiceId : Val}
    {changes : Record} {idx : Nat}
    (h : findIndex (fun i => getField i "id" == invoiceId) l = some idx) :
    updateInvoice l invoiceId changes =
      l.set idx (mergeRecords (l.getD idx [])
        (changesWithStatusMarkers (l.getD idx []) changes)) := by
  unfold updateInvoice
  rw [h]

/-- The body of `addPayment` is, line for line, the same body as `addInvoice`. -/
theorem addPayment_eq_addInvoice : addPayment = addInvoice := rfl

/-- The body of `updatePayment` is, line for line, the same body as `updateInvoice`. -/
theorem updatePayment_eq_updateInvoice : updatePayment = updateInvoice := rfl

theorem getD_cons_zero (a : α) (l : List α) (d : α) : (a :: l).getD 0 d = a := rfl

theorem set_cons_zero (a b : α) (l : List α) : (a :: l).set 0 b = b :: l := rfl

theorem addInvoice_twice_eq_up_to_markers (l : List Record) {invoice : Record}
    (h : noMarkers invoice) :
    (addInvoice (addInvoice l invoice) invoice).map eraseMarkers =
      (addInvoice l invoice).map eraseMarkers := by
  cases hfi : findIndex (fun i => getField i "id" == getField invoice "id") l with
  | none =>
      rw [addInvoice_of_findIndex_none hfi]
      have hhead : getField (setField invoice "_isNew" (Val.bool true)) "id" =
          getField invoice "id" :=
        getField_setField_ne _ _ (by decide)
      have hfi2 : findIndex (fun i => getField i "id" == getField invoice "id")
          (setField invoice "_isNew" (Val.bool true) :: l) = some 0 := by
        simp [findIndex, hhead]
      rw [addInvoice_of_findIndex_some hfi2, getD_cons_zero, set_cons_zero]
      have hstatus : getField (setField invoice "_isNew" (Val.bool true)) "status" =
          getField invoice "status" :=
        getField_setField_ne _ _ (by decide)
      rw [replaceWithStatusMarkers_of_status_eq hstatus]
      simp only [List.map_cons, List.cons.injEq]
      refine ⟨?_, trivial⟩
      rw [setField_of_not_mem _ h.1, eraseMarkers_append]
      have hone : eraseMarkers [("_isNew", Val.bool true)] = [] := rfl
      rw [hone, List.append_nil, eraseMarkers_eq_self h]
  | some idx =>
      have hlt := findIndex_lt_length hfi
      rw [addInvoice_of_findIndex_some hfi]
      have hr1id : getField (replaceWithStatusMarkers (l.getD idx []) invoice) "id" =
          getField invoice "id" :=
        getField_replaceWithStatusMarkers _ _ (by decide) (by decide)
      have hpr1 : (fun i => getField i "id" == getField invoice "id")
          (replaceWithStatusMarkers (l.getD idx []) invoice) = true := by
        show (getField (replaceWithStatusMarkers (l.getD idx []) invoice) "id" ==
          getField invoice "id") = true
        rw [hr1id]
        exact beq_self_eq_true _
      have hfi2 := findIndex_set hfi hpr1
      rw [addInvoice_of_findIndex_some hfi2, getD_set_self _ _ hlt]
      have hstatus : getField (replaceWithStatusMarkers (l.getD idx []) invoice)
          "status" = getField invoice "status" :=
        getField_replaceWithStatusMarkers _ _ (by decide) (by decide)
      rw [replaceWithStatusMarkers_of_status_eq hstatus, List.set_set,
        List.map_set, List.map_set, eraseMarkers_replaceWithStatusMarkers _ h,
        eraseMarkers_eq_self h]

theorem changesWithStatusMarkers_eq_self_of {stored ch : Record}
    (h : (getField ch "status").truthy = false ∨
      getField stored "status" = getField ch "status") :
    changesWithStatusMarkers stored ch = ch := by
  unfold changesWithStatusMarkers
  rcases h with h | h
  · rw [h, Bool.false_and]
    rfl
  · rw [h, bne_self_eq_false, Bool.and_false]
    rfl

theorem not_marker_of_mem_keys {ch : Record} {k : String} (hm : noMarkers ch)
    (hk : k ∈ recordKeys ch) :
    k ≠ "_statusChanged" ∧ k ≠ "_previousStatus" ∧ k ≠ "_isNew" := by
  refine ⟨?_, ?_, ?_⟩ <;> rintro rfl
  · exact hm.2.1 hk
  · exact hm.2.2 hk
  · exact hm.1 hk

theorem getField_changes_of_mem {stored ch : Record} {k : String}
    (hm : noMarkers ch) (hk : k ∈ recordKeys ch) :
    getField (changesWithStatusMarkers stored ch) k = getField ch k :=
  getField_changesWithStatusMarkers stored ch (not_marker_of_mem_keys hm hk).1
    (not_marker_of_mem_keys hm hk).2.1

theorem mem_keys_changesWithStatusMarkers (stored : Record) {ch : Record}
    {k : String} (hk : k ∈ recordKeys ch) (hm : noMarkers ch) :
    k ∈ recordKeys (changesWithStatusMarkers stored ch) := by
  rcases keys_changesWithStatusMarkers stored hm with h | h <;> rw [h]
  · exact hk
  · exact List.mem_append_left _ hk

theorem nodup_keys_changesWithStatusMarkers (stored : Record) {ch : Record}
    (hm : noMarkers ch) (hnd : (recordKeys ch).Nodup) :
    (recordKeys (changesWithStatusMarkers stored ch)).Nodup := by
  rcases keys_changesWithStatusMarkers stored hm with h | h <;> rw [h]
  · exact hnd
  · rw [List.nodup_append]
    refine ⟨hnd, by decide, ?_⟩
    intro k hk hk2
    have := not_marker_of_mem_keys hm hk
    simp only [List.mem_cons, List.mem_singleton] at hk2
    rcases hk2 with hk2 | hk2 | hk2
    · exact this.2.1 hk2
    · exact this.1 hk2
    · simp at hk2

theorem getField_merge_changes_of_mem (stored : Record) {ch : Record} {k : String}
    (hm : noMarkers ch) (hnd : (recordKeys ch).Nodup) (hk : k ∈ recordKeys ch) :
    getField (mergeRecords stored (changesWithStatusMarkers stored ch)) k =
      getField ch k := by
  rw [getField_mergeRecords_of_mem_nodup stored
    (nodup_keys_changesWithStatusMarkers stored hm hnd)
    (mem_keys_changesWithStatusMarkers stored hk hm)]
  exact getField_changes_of_mem hm hk

theorem updateInvoice_twice_eq (l : List Record) (invoiceId : Val) {ch : Record}
    (hm : noMarkers ch) (hnd : (recordKeys ch).Nodup)
    (hid : (getField ch "id" == invoiceId) = true ∨ "id" ∉ recordKeys ch) :
    updateInvoice (updateInvoice l invoiceId ch) invoiceId ch =
      updateInvoice l invoiceId ch := by
  cases hfi : findIndex (fun i => getField i "id" == invoiceId) l with
  | none =>
      rw [updateInvoice_of_findIndex_none hfi, updateInvoice_of_findIndex_none hfi]
  | some idx =>
      have hlt := findIndex_lt_length hfi
      have hstored := findIndex_getD ([] : Record) hfi
      rw [updateInvoice_of_findIndex_some hfi]
      have hpm : (fun i => getField i "id" == invoiceId)
          (mergeRecords (l.getD idx [])
            (changesWithStatusMarkers (l.getD idx []) ch)) = true := by
        show (getField (mergeRecords (l.getD idx [])
          (changesWithStatusMarkers (l.getD idx []) ch)) "id" == invoiceId) = true
        by_cases hmem : "id" ∈ recordKeys ch
        · rw [getField_merge_changes_of_mem _ hm hnd hmem]
          rcases hid with hid | hid
          · exact hid
          · exact absurd hmem hid
        · have hnotin : "id" ∉
              recordKeys (changesWithStatusMarkers (l.getD idx []) ch) := by
            rcases keys_changesWithStatusMarkers (l.getD idx []) hm with h | h <;>
              rw [h]
            · exact hmem
            · simp only [List.mem_append, List.mem_cons, List.mem_singleton]
              rintro (hc | hc | hc)
              · exact hmem hc
              · exact absurd hc (by decide)
              · simp at hc
          rw [getField_mergeRecords_of_not_mem _ hnotin]
          exact hstored
      have hfi2 := findIndex_set hfi hpm
      rw [updateInvoice_of_findIndex_some hfi2, getD_set_self _ _ hlt]
      have hch2 : changesWithStatusMarkers
          (mergeRecords (l.getD idx [])
            (changesWithStatusMarkers (l.getD idx []) ch)) ch = ch := by
        apply changesWithStatusMarkers_eq_self_of
        by_cases ht : (getField ch "status").truthy
        · right
          exact getField_merge_changes_of_mem _ hm hnd
            (mem_keys_of_getField_ne_undef (Val.truthy_ne_undef ht))
        · left
          exact Bool.not_eq_true _ ▸ (by simpa using ht)
      rw [hch2]
      have hmm : mergeRecords (mergeRecords (l.getD idx [])
          (changesWithStatusMarkers (l.getD idx []) ch)) ch =
          mergeRecords (l.getD idx [])
            (changesWithStatusMarkers (l.getD idx []) ch) := by
        apply mergeRecords_eq_self
        intro kv hkv
        have hk : kv.1 ∈ recordKeys ch := List.mem_map.2 ⟨kv, hkv, rfl⟩
        constructor
        · rw [getField_merge_changes_of_mem _ hm hnd hk]
          exact getField_of_mem_nodup hnd hkv
        · exact mem_keys_mergeRecords_right _
            (mem_keys_changesWithStatusMarkers _ hk hm)
      rw [hmm, List.set_set]

theorem replaceWithStatusMarkers_of_status_ne {stored incoming : Record}
    (h : getField stored "status" ≠ getField incoming "status") :
    replaceWithStatusMarkers stored incoming =
      setField (setField incoming "_previousStatus" (getField stored "status"))
        "_statusChanged" (Val.bool true) := by
  unfold replaceWithStatusMarkers
  rw [if_pos]
  simpa using h

theorem changesWithStatusMarkers_of_status_ne {stored ch : Record}
    (ht : (getField ch "status").truthy = true)
    (h : getField stored "status" ≠ getField ch "status") :
    changesWithStatusMarkers stored ch =
      setField (setField ch "_previousStatus" (getField stored "status"))
        "_statusChanged" (Val.bool true) := by
  unfold changesWithStatusMarkers
  rw [if_pos]
  simp [ht]
  exact h

/-- C1 counterexample: upserting the very same invoice twice through
`addInvoice` does NOT leave the store in the same state as upserting it
once — the second application replaces the stored record wholesale and so
drops the `_isNew` marker the first application added. -/
theorem addInvoice_twice_ne_once :
    addInvoice (addInvoice [] [("id", Val.str "1"), ("status", Val.str "pending")])
        [("id", Val.str "1"), ("status", Val.str "pending")] ≠
      addInvoice [] [("id", Val.str "1"), ("status", Val.str "pending")] := by
  decide

/-- C1 (amended): applying the same update twice is idempotent only up to
the presentation-marker fields.  `addInvoice` and `addPayment` (which
replace the stored record wholesale) agree with a single application after
erasing `_isNew`/`_statusChanged`/`_previousStatus`, provided the incoming
record carries none of those fields; `updateInvoice` and `updatePayment`
(which shallow-merge) are exactly idempotent for updates that carry no
marker fields, have duplicate-free keys and do not redirect the record's
`id`. -/
theorem upsert_idempotent_up_to_markers :
    (∀ (l : List Record) (invoice : Record), noMarkers invoice →
      (addInvoice (addInvoice l invoice) invoice).map eraseMarkers =
        (addInvoice l invoice).map eraseMarkers)
    ∧ (∀ (l : List Record) (payment : Record), noMarkers payment →
      (addPayment (addPayment l payment) payment).map eraseMarkers =
        (addPayment l payment).map eraseMarkers)
    ∧ (∀ (l : List Record) (invoiceId : Val) (ch : Record), noMarkers ch →
      (recordKeys ch).Nodup →
      ((getField ch "id" == invoiceId) = true ∨ "id" ∉ recordKeys ch) →
      updateInvoice (updateInvoice l invoiceId ch) invoiceId ch =
        updateInvoice l invoiceId ch)
    ∧ (∀ (l : List Record) (paymentId : Val) (ch : Record), noMarkers ch →
      (recordKeys ch).Nodup →
      ((getField ch "id" == paymentId) = true ∨ "id" ∉ recordKeys ch) →
      updatePayment (updatePayment l paymentId ch) paymentId ch =
        updatePayment l paymentId ch) := by
  refine ⟨fun l invoice h => addInvoice_twice_eq_up_to_markers l h,
    fun l payment h => ?_,
    fun l invoiceId ch hm hnd hid => updateInvoice_twice_eq l invoiceId hm hnd hid,
    fun l paymentId ch hm hnd hid => ?_⟩
  · rw [addPayment_eq_addInvoice]
    exact addInvoice_twice_eq_up_to_markers l h
  · rw [updatePayment_eq_updateInvoice]
    exact updateInvoice_twice_eq l paymentId hm hnd hid

/-- C1 witness: the amended idempotence law evaluated at concrete inputs. -/
theorem upsert_idempotent_up_to_markers_witness :
    ((addInvoice (addInvoice [] [("id", Val.num 1), ("status", Val.str "pending")])
        [("id", Val.num 1), ("status", Val.str "pending")]).map eraseMarkers =
      (addInvoice [] [("id", Val.num 1), ("status", Val.str "pending")]).map
        eraseMarkers)
    ∧ updateInvoice (updateInvoice [[("id", Val.num 1), ("status", Val.str "pending")]]
          (Val.num 1) [("status", Val.str "paid")])
        (Val.num 1) [("status", Val.str "paid")] =
      updateInvoice [[("id", Val.num 1), ("status", Val.str "pending")]]
        (Val.num 1) [("status", Val.str "paid")] :=
  ⟨upsert_idempotent_up_to_markers.1 _ _ (by decide),
   upsert_idempotent_up_to_markers.2.2.1 _ _ _ (by decide) (by decide)
     (Or.inr (by decide))⟩

/-- C2 counterexample: merging an update whose `status` equals the stored
status still yields a record carrying `_statusChanged = true` when the
stored record already carried the (stale) marker from an earlier merge —
the shallow merge keeps it. -/
theorem updateInvoice_stale_marker_counterexample :
    getField [("id", Val.str "1"), ("status", Val.str "paid"),
        ("_statusChanged", Val.bool true)] "status" =
      getField [("status", Val.str "paid")] "status"
    ∧ getField ((updateInvoice
        [[("id", Val.str "1"), ("status", Val.str "paid"),
          ("_statusChanged", Val.bool true)]]
        (Val.str "1") [("status", Val.str "paid")]).getD 0 [])
        "_statusChanged" = Val.bool true := by
  decide

/-- C2 (amended): the claimed status-marker contract holds provided the
stored record does not already carry a marker field, the incoming update
carries none, and — for the merge-based `updateInvoice`/`updatePayment` —
the update's `status` is present and truthy: equal status leaves the merged
record without `_statusChanged`, different status sets
`_statusChanged = true` and stores the prior status under
`_previousStatus`.  The replacement-based `addInvoice` (and `addPayment`,
whose body is identical) satisfies the same contract without the
truthiness proviso. -/
theorem upsert_status_marker_contract :
    (∀ (l : List Record) (invoiceId : Val) (ch : Record) (idx : Nat),
      noMarkers ch → (recordKeys ch).Nodup → noMarkers (l.getD idx []) →
      (getField ch "status").truthy = true →
      findIndex (fun i => getField i "id" == invoiceId) l = some idx →
      (getField (l.getD idx []) "status" = getField ch "status" →
        getField ((updateInvoice l invoiceId ch).getD idx []) "_statusChanged" =
          Val.undef)
      ∧ (getField (l.getD idx []) "status" ≠ getField ch "status" →
        getField ((updateInvoice l invoiceId ch).getD idx []) "_statusChanged" =
            Val.bool true
        ∧ getField ((updateInvoice l invoiceId ch).getD idx []) "_previousStatus" =
            getField (l.getD idx []) "status"))
    ∧ (∀ (l : List Record) (invoice : Record) (idx : Nat),
      noMarkers invoice →
      findIndex (fun i => getField i "id" == getField invoice "id") l = some idx →
      (getField (l.getD idx []) "status" = getField invoice "status" →
        getField ((addInvoice l invoice).getD idx []) "_statusChanged" = Val.undef)
      ∧ (getField (l.getD idx []) "status" ≠ getField invoice "status" →
        getField ((addInvoice l invoice).getD idx []) "_statusChanged" =
            Val.bool true
        ∧ getField ((addInvoice l invoice).getD idx []) "_previousStatus" =
            getField (l.getD idx []) "status"))
    ∧ updatePayment = updateInvoice
    ∧ addPayment = addInvoice := by
  refine ⟨?_, ?_, updatePayment_eq_updateInvoice, addPayment_eq_addInvoice⟩
  · intro l invoiceId ch idx hm hnd hstored ht hfi
    have hlt := findIndex_lt_length hfi
    rw [updateInvoice_of_findIndex_some hfi, getD_set_self _ _ hlt]
    constructor
    · intro heq
      rw [changesWithStatusMarkers_eq_self_of (Or.inr heq)]
      have hsc : "_statusChanged" ∉ recordKeys ch := hm.2.1
      rw [getField_mergeRecords_of_not_mem _ hsc]
      exact getField_of_not_mem hstored.2.1
    · intro hne
      have hch := changesWithStatusMarkers_of_status_ne ht hne
      have hnd' := nodup_keys_changesWithStatusMarkers (l.getD idx []) hm hnd
      constructor
      · have hmem : "_statusChanged" ∈
            recordKeys (changesWithStatusMarkers (l.getD idx []) ch) := by
          rw [hch]
          exact mem_keys_setField _ _ _ _ (Or.inr rfl)
        rw [getField_mergeRecords_of_mem_nodup _ hnd' hmem, hch,
          getField_setField_self]
      · have hmem : "_previousStatus" ∈
            recordKeys (changesWithStatusMarkers (l.getD idx []) ch) := by
          rw [hch]
          exact mem_keys_setField _ _ _ _
            (Or.inl (mem_keys_setField _ _ _ _ (Or.inr rfl)))
        rw [getField_mergeRecords_of_mem_nodup _ hnd' hmem, hch,
          getField_setField_ne _ _ (by decide), getField_setField_self]
  · intro l invoice idx hm hfi
    have hlt := findIndex_lt_length hfi
    rw [addInvoice_of_findIndex_some hfi, getD_set_self _ _ hlt]
    constructor
    · intro heq
      rw [replaceWithStatusMarkers_of_status_eq heq]
      exact getField_of_not_mem hm.2.1
    · intro hne
      rw [replaceWithStatusMarkers_of_status_ne hne]
      exact ⟨getField_setField_self _ _ _,
        by rw [getField_setField_ne _ _ (by decide), getField_setField_self]⟩

/-- C2 witness: the amended marker contract evaluated at concrete inputs,
covering both the unchanged-status and the changed-status branch. -/
theorem upsert_status_marker_contract_witness :
    (getField ((updateInvoice [[("id", Val.num 1), ("status", Val.str "pending")]]
        (Val.num 1) [("status", Val.str "pending")]).getD 0 [])
      "_statusChanged" = Val.undef)
    ∧ (getField ((updateInvoice [[("id", Val.num 1), ("status", Val.str "pending")]]
        (Val.num 1) [("status", Val.str "paid")]).getD 0 [])
        "_statusChanged" = Val.bool true
      ∧ getField ((updateInvoice [[("id", Val.num 1), ("status", Val.str "pending")]]
        (Val.num 1) [("status", Val.str "paid")]).getD 0 [])
        "_previousStatus" = Val.str "pending") :=
  ⟨(upsert_status_marker_contract.1 [[("id", Val.num 1), ("status", Val.str "pending")]]
      (Val.num 1) [("status", Val.str "pending")] 0 (by decide) (by decide)
      (by decide) (by decide) (by decide)).1 (by decide),
   (upsert_status_marker_contract.1 [[("id", Val.num 1), ("status", Val.str "pending")]]
      (Val.num 1) [("status", Val.str "paid")] 0 (by decide) (by decide)
      (by decide) (by decide) (by decide)).2 (by decide)⟩


/-! Filter-stage characterizations for C5. -/

theorem applyDirectionFilter_eq (f : Option TxFilters) (l : List Tx) :
    applyDirectionFilter f l = l.filter (fun tx =>
      match f with
      | some fl =>
          if fl.direction != "" && fl.direction != "all" then
            tx.direction == fl.direction
          else true
      | none => true) := by
  rcases f with _ | fl
  · simp [applyDirectionFilter]
  · cases h : (fl.direction != "" && fl.direction != "all") <;>
      simp [applyDirectionFilter, h]

theorem applyStatusFilter_eq (f : Option TxFilters) (l : List Tx) :
    applyStatusFilter f l = l.filter (fun tx =>
      match f with
      | some fl =>
          if fl.status != "" && fl.status != "all" then tx.status == fl.status
          else true
      | none => true) := by
  rcases f with _ | fl
  · simp [applyStatusFilter]
  · cases h : (fl.status != "" && fl.status != "all") <;>
      simp [applyStatusFilter, h]

theorem applySearchFilter_eq (s : Option SearchData) (l : List Tx) :
    applySearchFilter s l = l.filter (fun tx =>
      match s with
      | some sd =>
          if sd.searchText != "" then
            (optTruthy tx.memo &&
              strContains (toLowerStr (tx.memo.getD ""))
                (toLowerStr sd.searchText)) ||
            (optTruthy tx.payment_hash &&
              strContains (toLowerStr (tx.payment_hash.getD ""))
                (toLowerStr sd.searchText))
          else true
      | none => true) := by
  rcases s with _ | sd
  · simp [applySearchFilter]
  · cases h : (sd.searchText != "") <;> simp [applySearchFilter, h]

theorem not_decide_lt (x a : Int) : (!decide (x < a)) = decide (a ≤ x) := by
  rw [← decide_not]
  exact decide_eq_decide.mpr not_lt

theorem applyDateFilter_eq (d : Option DateRange) (l : List Tx) :
    applyDateFilter d l = l.filter (fun tx =>
      match d with
      | some dr =>
          (match dr.fromDay with
           | some d1 => decide (dayStartMs d1 ≤ tx.created_at)
           | none => true) &&
          (match dr.toDay with
           | some d2 => decide (tx.created_at ≤ dayEndMs d2)
           | none => true)
      | none => true) := by
  rcases d with _ | ⟨df, dt⟩
  · simp [applyDateFilter]
  · rcases df with _ | d1 <;> rcases dt with _ | d2 <;>
      simp [applyDateFilter, not_decide_lt]

theorem filter_chain4 (l : List α) (p1 p2 p3 p4 : α → Bool) :
    (((l.filter p1).filter p2).filter p3).filter p4 =
      l.filter (fun a => p1 a && (p2 a && (p3 a && p4 a))) := by
  rw [List.filter_filter, List.filter_filter, List.filter_filter]
  apply List.filter_congr
  intro a _
  cases p1 a <;> cases p2 a <;> cases p3 a <;> cases p4 a <;> rfl

theorem filterTransactions_eq_filter (txs : List Tx) (f : Option TxFilters)
    (s : Option SearchData) (d : Option DateRange) :
    filterTransactions (.arr txs) f s d = txs.filter (claimedFilterPred f s d) := by
  show applyDateFilter d (applySearchFilter s (applyStatusFilter f
    (applyDirectionFilter f txs))) = txs.filter (claimedFilterPred f s d)
  rw [applyDirectionFilter_eq, applyStatusFilter_eq, applySearchFilter_eq,
    applyDateFilter_eq, filter_chain4]
  rfl

/-- C5: `filterTransactions` returns exactly the transactions satisfying
the conjunction of all active filters (direction equality, status
equality, case-insensitive substring match against memo or payment hash,
and `created_at` within the inclusive day range from 00:00:00.000 of the
from-day to 23:59:59.999 of the to-day), and with no active filters it
returns the input list unchanged. -/
theorem filterTransactions_conjunction :
    (∀ (txs : List Tx) (f : Option TxFilters) (s : Option SearchData)
        (d : Option DateRange),
      filterTransactions (.arr txs) f s d = txs.filter (claimedFilterPred f s d))
    ∧ (∀ txs : List Tx, filterTransactions (.arr txs) none none none = txs)
    ∧ (∀ txs : List Tx,
        filterTransactions (.arr txs) (some ⟨"all", "all"⟩) (some ⟨""⟩)
          (some ⟨none, none⟩) = txs) := by
  refine ⟨filterTransactions_eq_filter, fun txs => rfl, fun txs => ?_⟩
  rw [filterTransactions_eq_filter]
  exact List.filter_eq_self.mpr (fun a _ => rfl)

/-- C10: `filterTransactions` returns the empty list for every
null/undefined or non-array `transactions` argument, and
`combineTransactions` substitutes the empty list for any non-array
`invoices` or `payments` argument instead of failing. -/
theorem malformed_input_totality :
    (∀ (f : Option TxFilters) (s : Option SearchData) (d : Option DateRange),
      filterTransactions .nullish f s d = []
      ∧ filterTransactions .nonArray f s d = [])
    ∧ (∀ (payments : JsArg Tx) (mapInvoice mapPayment : Tx → Tx),
      combineTransactions .nullish payments mapInvoice mapPayment =
        combineTransactions (.arr []) payments mapInvoice mapPayment
      ∧ combineTransactions .nonArray payments mapInvoice mapPayment =
        combineTransactions (.arr []) payments mapInvoice mapPayment)
    ∧ (∀ (invoices : JsArg Tx) (mapInvoice mapPayment : Tx → Tx),
      combineTransactions invoices .nullish mapInvoice mapPayment =
        combineTransactions invoices (.arr []) mapInvoice mapPayment
      ∧ combineTransactions invoices .nonArray mapInvoice mapPayment =
        combineTransactions invoices (.arr []) mapInvoice mapPayment) :=
  ⟨fun _ _ _ => ⟨rfl, rfl⟩, fun _ _ _ => ⟨rfl, rfl⟩, fun _ _ _ => ⟨rfl, rfl⟩⟩

/-- C6: with `channel_info.capacity` and `channel_info.local_balance`
defined, `isInvoiceAmountValid` holds exactly when the requested amount is
at most capacity minus local balance; for capacity 1000 and local balance
400 the ceiling is 600, so 600 is valid and 601 is not. -/
theorem invoice_ceiling (a : Asset) (ci : ChannelInfo) (c lb amt : Int)
    (h1 : a.channel_info = some ci) (h2 : ci.capacity = some c)
    (h3 : ci.local_balance = some lb) :
    (isInvoiceAmountValid (some a) amt = true ↔ amt ≤ c - lb)
    ∧ getMaxReceivableAmount
        (some ⟨"asset", some ⟨some 1000, some 400⟩, none⟩) = 600
    ∧ isInvoiceAmountValid
        (some ⟨"asset", some ⟨some 1000, some 400⟩, none⟩) 600 = true
    ∧ isInvoiceAmountValid
        (some ⟨"asset", some ⟨some 1000, some 400⟩, none⟩) 601 = false := by
  refine ⟨?_, by decide, by decide, by decide⟩
  simp [isInvoiceAmountValid, maxInvoiceAmount, getMaxReceivableAmount, h1, h2, h3]

/-- C6 witness: the ceiling law instantiated at the spec's example asset. -/
theorem invoice_ceiling_witness :
    isInvoiceAmountValid (some ⟨"asset", some ⟨some 1000, some 400⟩, none⟩)
      600 = true :=
  (invoice_ceiling ⟨"asset", some ⟨some 1000, some 400⟩, none⟩
    ⟨some 1000, some 400⟩ 1000 400 600 rfl rfl rfl).1.mpr (by decide)

/-- C7: when a pay error's backend detail contains `'internal payment'` or
`'own invoice'`, `payInvoice`'s catch block rethrows the error marked
`isInternalPayment = true`, and the index.js pay flow then takes the
automatic internal-payment fallback (exactly one fallback call) instead of
surfacing the failure. -/
theorem internal_payment_fallback (e : PayError) (d : String)
    (hd : e.responseDetail = some d)
    (hmatch : strContains d "internal payment" = true ∨
      strContains d "own invoice" = true) :
    (markInternalPayment e).isInternalPayment = true
    ∧ payFlowOnError (markInternalPayment e) = .fallbackInternal
    ∧ payFlowCalls (markInternalPayment e) = (1, false) := by
  have hne : (d != "") = true := by
    rcases hmatch with h | h <;>
    · cases hbe : d != ""
      · have hd0 : d = "" := by simpa using hbe
        subst hd0
        exact absurd h (by decide)
      · rfl
  have hcond : (d != "" &&
      (strContains d "internal payment" || strContains d "own invoice")) = true := by
    rw [hne]
    rcases hmatch with h | h <;> simp [h]
  have h1 : (markInternalPayment e).isInternalPayment = true := by
    have hmark : markInternalPayment e =
        { e with
          isInternalPayment := true,
          message := "This invoice belongs to another user on this node. System will process it as an internal payment." } := by
      unfold markInternalPayment
      rw [hd]
      exact if_pos hcond
    rw [hmark]
  refine ⟨h1, ?_, ?_⟩
  · unfold payFlowOnError
    rw [h1]
    rfl
  · unfold payFlowCalls payFlowOnError
    rw [h1]
    rfl

/-- C7 witness: the fallback routing at a concrete backend error. -/
theorem internal_payment_fallback_witness :
    (markInternalPayment ⟨some "cannot pay own invoice", false, ""⟩).isInternalPayment
        = true
    ∧ payFlowOnError (markInternalPayment
        ⟨some "cannot pay own invoice", false, ""⟩) = .fallbackInternal :=
  ⟨(internal_payment_fallback ⟨some "cannot pay own invoice", false, ""⟩
      "cannot pay own invoice" rfl (Or.inr (by decide))).1,
   (internal_payment_fallback ⟨some "cannot pay own invoice", false, ""⟩
      "cannot pay own invoice" rfl (Or.inr (by decide))).2.1⟩

theorem csv_foldl_shift (headers : List String) (l : List CSVRow) (a : String) :
    l.foldl (fun acc row => acc ++ csvLine headers row ++ "\n") a =
      a ++ l.foldl (fun acc row => acc ++ csvLine headers row ++ "\n") "" := by
  induction l generalizing a with
  | nil => exact (String.append_empty a).symm
  | cons x l ih =>
      rw [List.foldl_cons, List.foldl_cons, ih, ih ("" ++ csvLine headers x ++ "\n")]
      show a ++ csvLine headers x ++ "\n" ++
          List.foldl (fun acc row => acc ++ csvLine headers row ++ "\n") "" l =
        a ++ (csvLine headers x ++ "\n" ++
          List.foldl (fun acc row => acc ++ csvLine headers row ++ "\n") "" l)
      rw [String.append_assoc, String.append_assoc, String.append_assoc]

/-- C8: for a non-empty row list the generated CSV content starts with the
first row's field names comma-joined, a newline, then the first row's
values (in header order) comma-joined and a newline, where a value
containing a comma, a double quote or a newline is wrapped in double
quotes with internal quotes doubled, and every other value appears
verbatim. -/
theorem downloadCSV_content (r0 : CSVRow) (rs : List CSVRow) (v : String) :
    csvContent (r0 :: rs) =
      String.intercalate "," (r0.map Prod.fst) ++ "\n" ++
        csvLine (r0.map Prod.fst) r0 ++ "\n" ++
        rs.foldl (fun acc row => acc ++ csvLine (r0.map Prod.fst) row ++ "\n") ""
    ∧ csvLine (r0.map Prod.fst) r0 =
      String.intercalate ","
        ((r0.map Prod.fst).map (fun h => escapeCSVValue (rowValue r0 h)))
    ∧ (needsQuoting v = true → escapeCSVValue v = "\"" ++ doubleQuotes v ++ "\"")
    ∧ (needsQuoting v = false → escapeCSVValue v = v) := by
  refine ⟨?_, rfl, fun h => by simp [escapeCSVValue, h],
    fun h => by simp [escapeCSVValue, h]⟩
  show (r0 :: rs).foldl (fun acc row => acc ++ csvLine (r0.map Prod.fst) row ++ "\n")
      (String.intercalate "," (r0.map Prod.fst) ++ "\n") = _
  rw [List.foldl_cons, csv_foldl_shift]

/-- C8 witness: the CSV layout at the spec's example row, plus a value
that needs quoting. -/
theorem downloadCSV_content_witness :
    csvContent [[("date", some "2024-01-01"), ("type", some "RECEIVED"),
        ("amount", some "10"), ("asset", some "USDT")]] =
      String.intercalate ","
          (([("date", some "2024-01-01"), ("type", some "RECEIVED"),
            ("amount", some "10"), ("asset", some "USDT")] : CSVRow).map Prod.fst)
        ++ "\n" ++
        csvLine (([("date", some "2024-01-01"), ("type", some "RECEIVED"),
            ("amount", some "10"), ("asset", some "USDT")] : CSVRow).map Prod.fst)
          [("date", some "2024-01-01"), ("type", some "RECEIVED"),
            ("amount", some "10"), ("asset", some "USDT")]
        ++ "\n" ++ ""
    ∧ escapeCSVValue "a,\"b\"" = "\"" ++ doubleQuotes "a,\"b\"" ++ "\"" :=
  ⟨(downloadCSV_content [("date", some "2024-01-01"), ("type", some "RECEIVED"),
      ("amount", some "10"), ("asset", some "USDT")] [] "x").1,
   (downloadCSV_content [("date", some "2024-01-01"), ("type", some "RECEIVED"),
      ("amount", some "10"), ("asset", some "USDT")] [] "a,\"b\"").2.2.1 (by decide)⟩

/-! find?/set lemmas for the balance updates (C9). -/

theorem findIndex_of_find? {p : α → Bool} {l : List α} {a0 : α} (d : α)
    (h : l.find? p = some a0) :
    ∃ i, findIndex p l = some i ∧ l.getD i d = a0 := by
  induction l with
  | nil => simp at h
  | cons a l ih =>
      by_cases hp : p a
      · rw [List.find?_cons_of_pos _ hp] at h
        obtain rfl : a = a0 := by simpa using h
        exact ⟨0, by simp [findIndex, hp], rfl⟩
      · rw [List.find?_cons_of_neg _ hp] at h
        obtain ⟨i, hi, hg⟩ := ih h
        refine ⟨i + 1, by simp [findIndex, hp, hi], ?_⟩
        simpa [List.getD] using hg

theorem find?_set_of_findIndex {p : α → Bool} {l : List α} {i : Nat} {v : α}
    (h : findIndex p l = some i) (hv : p v = true) :
    (l.set i v).find? p = some v := by
  induction l generalizing i with
  | nil => simp [findIndex] at h
  | cons a l ih =>
      by_cases hp : p a
      · simp only [findIndex, hp, if_pos, Option.some.injEq] at h
        subst h
        simp [List.set, List.find?_cons_of_pos _ hv]
      · simp only [findIndex, hp, Bool.false_eq_true, if_false,
          Option.map_eq_some'] at h
        obtain ⟨j, hj, rfl⟩ := h
        simp [List.set, List.find?_cons_of_neg _ hp, ih hj]

theorem mem_of_mem_set {l : List α} {i : Nat} {v a : α} (h : a ∈ l.set i v) :
    a ∈ l ∨ a = v := by
  induction l generalizing i with
  | nil => simp [List.set] at h
  | cons b l ih =>
      cases i with
      | zero =>
          rcases List.mem_cons.1 h with h | h
          · exact Or.inr h
          · exact Or.inl (List.mem_cons_of_mem b h)
      | succ j =>
          rcases List.mem_cons.1 h with h | h
          · exact Or.inl (h ▸ List.mem_cons_self b l)
          · rcases ih h with h | h
            · exact Or.inl (List.mem_cons_of_mem b h)
            · exact Or.inr h

theorem updateAssetBalance_find? (assets : List Asset) (aid : String) (v : Int)
    (a0 : Asset) (h : assets.find? (fun a => a.asset_id == aid) = some a0) :
    (updateAssetBalance assets aid v).find? (fun a => a.asset_id == aid) =
      some { a0 with user_balance := some v } := by
  obtain ⟨i, hfi, hget⟩ := findIndex_of_find? ⟨"", none, none⟩ h
  unfold updateAssetBalance
  rw [hfi]
  show (assets.set i
      { assets.getD i ⟨"", none, none⟩ with user_balance := some v }).find?
      (fun a => a.asset_id == aid) = some { a0 with user_balance := some v }
  rw [hget]
  apply find?_set_of_findIndex hfi
  simpa using List.find?_some h

theorem updateAssetBalance_mem {assets : List Asset} {aid : String} {v : Int}
    {a : Asset} (h : a ∈ updateAssetBalance assets aid v) :
    a ∈ assets ∨ a.user_balance = some v := by
  unfold updateAssetBalance at h
  cases hfi : findIndex (fun a => a.asset_id == aid) assets with
  | none =>
      rw [hfi] at h
      exact Or.inl h
  | some i =>
      rw [hfi] at h
      rcases mem_of_mem_set h with h | h
      · exact Or.inl h
      · exact Or.inr (by rw [h])

/-- C9 counterexample: `payInvoice` computes the new balance from the
caller-supplied asset snapshot, not the stored asset.  With a stored
balance of 100, a stale snapshot balance of 50 and a paid amount of 10,
the stored balance becomes 40, not max(0, 100 - 10) = 90. -/
theorem payInvoice_balance_snapshot_counterexample :
    ((payInvoiceBalanceUpdate [⟨"a", none, some 100⟩] ⟨"a", none, some 50⟩ 10).getD 0
        ⟨"", none, none⟩).user_balance = some 40
    ∧ (40 : Int) ≠ max 0 (100 - 10) := by decide

/-- C9 (amended): after a successful pay, the paying asset's stored
`user_balance` becomes `max 0 (b - asset_amount)` where `b` is the
balance the pay path read — the caller-supplied snapshot's
`user_balance || 0` for `payInvoice` (which equals the stored previous
balance only when the snapshot is current), and the stored asset's own
`user_balance || 0` for `processInternalPayment` (which looks the asset up
in the store, exactly as the claim states); in all cases no update ever
writes a negative stored balance. -/
theorem pay_balance_update_behaviour :
    (∀ (assets : List Asset) (assetData : Asset) (amt : Int) (a0 : Asset),
      assets.find? (fun a => a.asset_id == assetData.asset_id) = some a0 →
      (payInvoiceBalanceUpdate assets assetData amt).find?
          (fun a => a.asset_id == assetData.asset_id) =
        some { a0 with
          user_balance := some (max 0 (assetData.user_balance.getD 0 - amt)) })
    ∧ (∀ (assets : List Asset) (rid : String) (amt : Int) (a0 : Asset),
      assets.find? (fun a => a.asset_id == rid) = some a0 →
      (internalPaymentBalanceUpdate assets rid amt).find?
          (fun a => a.asset_id == rid) =
        some { a0 with
          user_balance := some (max 0 (a0.user_balance.getD 0 - amt)) })
    ∧ (∀ (assets : List Asset) (assetData : Asset) (amt : Int) (a : Asset),
      a ∈ payInvoiceBalanceUpdate assets assetData amt →
      a ∈ assets ∨ ∃ b : Int, a.user_balance = some b ∧ 0 ≤ b)
    ∧ (∀ (assets : List Asset) (rid : String) (amt : Int) (a : Asset),
      a ∈ internalPaymentBalanceUpdate assets rid amt →
      a ∈ assets ∨ ∃ b : Int, a.user_balance = some b ∧ 0 ≤ b) := by
  refine ⟨?_, ?_, ?_, ?_⟩
  · intro assets assetData amt a0 h
    exact updateAssetBalance_find? assets assetData.asset_id _ a0 h
  · intro assets rid amt a0 h
    have hid : a0.asset_id = rid := by simpa using List.find?_some h
    have h' : assets.find? (fun a => a.asset_id == a0.asset_id) = some a0 := by
      rw [hid]
      exact h
    have h2 := updateAssetBalance_find? assets a0.asset_id
      (max 0 (a0.user_balance.getD 0 - amt)) a0 h'
    unfold internalPaymentBalanceUpdate
    rw [h]
    show (updateAssetBalance assets a0.asset_id
        (max 0 (a0.user_balance.getD 0 - amt))).find?
        (fun a => a.asset_id == rid) =
      some { a0 with
        user_balance := some (max 0 (a0.user_balance.getD 0 - amt)) }
    rw [hid] at h2 ⊢
    exact h2
  · intro assets assetData amt a h
    rcases updateAssetBalance_mem h with h | h
    · exact Or.inl h
    · exact Or.inr ⟨_, h, le_max_left 0 _⟩
  · intro assets rid amt a h
    unfold internalPaymentBalanceUpdate at h
    cases hf : assets.find? (fun a => a.asset_id == rid) with
    | none =>
        rw [hf] at h
        exact Or.inl h
    | some a0 =>
        rw [hf] at h
        rcases updateAssetBalance_mem h with h | h
        · exact Or.inl h
        · exact Or.inr ⟨_, h, le_max_left 0 _⟩

/-- C9 witness: the amended balance law at a concrete store and payment. -/
theorem pay_balance_update_behaviour_witness :
    ([⟨"a", none, some 100⟩] : List Asset).find?
        (fun x => x.asset_id == "a") = some ⟨"a", none, some 100⟩
    ∧ (payInvoiceBalanceUpdate [⟨"a", none, some 100⟩] ⟨"a", none, some 100⟩
        30).find? (fun x => x.asset_id == ("a" : String)) =
      some ⟨"a", none, some (max 0 (100 - 30))⟩ :=
  ⟨by decide,
   pay_balance_update_behaviour.1 [⟨"a", none, some 100⟩] ⟨"a", none, some 100⟩
     30 ⟨"a", none, some 100⟩ (by decide)⟩

/-! WebSocket manager lemmas (C3, C4). -/

theorem passive_step_preserves {e : WSEvent} {s : WSState}
    (hp : isPassiveEvent e = true) (h : exhaustedPollingInv s) :
    exhaustedPollingInv (wsStep e s) := by
  obtain ⟨h1, h2, h3⟩ := h
  cases e with
  | close ch =>
      cases ch <;>
        (simp only [wsStep, handleConnectionClose, clearChannel, allConnectionsDown,
          scheduleReconnect, startFallbackPolling, exhaustedPollingInv] <;>
        split_ifs <;> simp_all)
  | error ch =>
      cases ch <;>
        (simp only [wsStep, handleConnectionError, handleConnectionClose,
          clearChannel, allConnectionsDown, scheduleReconnect,
          startFallbackPolling, exhaustedPollingInv] <;>
        split_ifs <;> simp_all)
  | timerFire =>
      simp only [wsStep, reconnectTimerFire, h2, Bool.false_eq_true, if_false]
      exact ⟨h1, h2, h3⟩
  | pollTick => exact ⟨h1, h2, h3⟩
  | connectCall => simp [isPassiveEvent] at hp
  | closeAllCall => simp [isPassiveEvent] at hp
  | destroyCall => simp [isPassiveEvent] at hp

theorem exhausted_persists (s : WSState) (evs : List WSEvent)
    (h : exhaustedPollingInv s) (hall : ∀ e ∈ evs, isPassiveEvent e = true) :
    exhaustedPollingInv (runWSEvents s evs) := by
  induction evs generalizing s with
  | nil => exact h
  | cons e es ih =>
      exact ih _ (passive_step_preserves (hall e (List.mem_cons_self e es)) h)
        (fun e' he' => hall e' (List.mem_cons_of_mem e he'))

theorem polling_down_step (e : WSEvent) (s : WSState) (h : pollingDownInv s) :
    pollingDownInv (wsStep e s) := by
  cases e with
  | close ch =>
      cases ch <;>
        (simp only [wsStep, handleConnectionClose, clearChannel,
          allConnectionsDown, scheduleReconnect, startFallbackPolling,
          pollingDownInv] at h ⊢ <;>
        split_ifs <;> intro hpoll <;> simp_all)
  | error ch =>
      cases ch <;>
        (simp only [wsStep, handleConnectionError, handleConnectionClose,
          clearChannel, allConnectionsDown, scheduleReconnect,
          startFallbackPolling, pollingDownInv] at h ⊢ <;>
        split_ifs <;> intro hpoll <;> simp_all)
  | timerFire =>
      simp only [wsStep, reconnectTimerFire, connect, closeAll,
        stopFallbackPolling, connectChannels, pollingDownInv] at h ⊢
      split_ifs <;> intro hpoll <;> simp_all
  | pollTick => exact h
  | connectCall =>
      simp only [wsStep, connect, closeAll, stopFallbackPolling,
        connectChannels, pollingDownInv] at h ⊢
      split_ifs <;> intro hpoll <;> simp_all
  | closeAllCall =>
      simp only [wsStep, closeAll, stopFallbackPolling, pollingDownInv] at h ⊢
      intro hpoll
      simp_all
  | destroyCall =>
      simp only [wsStep, destroy, closeAll, stopFallbackPolling,
        pollingDownInv] at h ⊢
      intro hpoll
      simp_all

theorem polling_down_run (s : WSState) (evs : List WSEvent)
    (h : pollingDownInv s) : pollingDownInv (runWSEvents s evs) := by
  induction evs generalizing s with
  | nil => exact h
  | cons e es ih => exact ih _ (polling_down_step e s h)

/-- C3 counterexample: fallback polling is started on the very first full
disconnection, while the reconnect budget (max 5 attempts) is far from
exhausted — the flag does become true before the budget is exhausted. -/
theorem fallback_before_budget_counterexample :
    (runWSEvents (initializeWS true initialWSState)
        [.close .invoices, .close .payments, .close .balances]).fallbackPolling
      = true
    ∧ (runWSEvents (initializeWS true initialWSState)
        [.close .invoices, .close .payments, .close .balances]).reconnectAttempts
      = 1
    ∧ 1 < maxReconnectAttempts := by decide

/-- C3 (amended): once `reconnectAttempts` has reached
`maxReconnectAttempts`, `_scheduleReconnect` never schedules another
attempt and leaves the counter unchanged; `_startFallbackPolling` is a
no-op while the flag is already set (so the flag is not re-set); a manual
`connect()` resets the counter to 0 and clears the flag; and once the
budget is exhausted with polling on and no pending retry, that situation
persists through every passive event (closes, errors, timer and poll
ticks) until a manual `connect()`/`closeAll()`.  Fallback polling is,
however, started on the first full disconnection, not only at budget
exhaustion. -/
theorem reconnect_budget_behaviour :
    (∀ s : WSState, maxReconnectAttempts ≤ s.reconnectAttempts →
      (scheduleReconnect s).reconnectPending = false
      ∧ (scheduleReconnect s).reconnectAttempts = s.reconnectAttempts)
    ∧ (∀ s : WSState, s.fallbackPolling = true → startFallbackPolling s = s)
    ∧ (∀ s : WSState, (connect s).reconnectAttempts = 0
        ∧ (connect s).fallbackPolling = false)
    ∧ (∀ (s : WSState) (evs : List WSEvent), exhaustedPollingInv s →
        (∀ e ∈ evs, isPassiveEvent e = true) →
        exhaustedPollingInv (runWSEvents s evs)) := by
  refine ⟨?_, ?_, ?_, exhausted_persists⟩
  · intro s h
    constructor <;> simp [scheduleReconnect, ge_iff_le, h]
  · intro s h
    simp [startFallbackPolling, h]
  · intro s
    constructor <;>
      simp [connect, connectChannels, closeAll, stopFallbackPolling, apply_ite]

/-- C3 witness: the amended reconnect-budget behaviour at a concrete
exhausted state and a concrete passive event sequence. -/
theorem reconnect_budget_behaviour_witness :
    startFallbackPolling ⟨false, false, false, false, 5, false, true, true, true⟩ =
      ⟨false, false, false, false, 5, false, true, true, true⟩
    ∧ exhaustedPollingInv (runWSEvents
        ⟨false, false, false, false, 5, false, true, true, true⟩
        [.close .invoices, .timerFire, .pollTick]) :=
  ⟨reconnect_budget_behaviour.2.1 ⟨false, false, false, false, 5, false, true, true, true⟩
      (by decide),
   reconnect_budget_behaviour.2.2.2 ⟨false, false, false, false, 5, false, true, true, true⟩
      [.close .invoices, .timerFire, .pollTick] (by decide) (by decide)⟩

/-- C4 counterexample: the claimed iff fails in both directions.  After
the first full disconnection fallback polling is active while a reconnect
retry is pending (so "polling iff no pending retry" fails), and after a
single channel closure not all channels are connected with no retry
pending, yet polling is inactive. -/
theorem fallback_polling_iff_counterexample :
    ((runWSEvents (initializeWS true initialWSState)
        [.close .invoices, .close .payments, .close .balances]).fallbackPolling
        = true
      ∧ (runWSEvents (initializeWS true initialWSState)
        [.close .invoices, .close .payments, .close .balances]).reconnectPending
        = true)
    ∧ ((runWSEvents (initializeWS true initialWSState)
        [.close .invoices]).connInvoices = false
      ∧ (runWSEvents (initializeWS true initialWSState)
        [.close .invoices]).reconnectPending = false
      ∧ (runWSEvents (initializeWS true initialWSState)
        [.close .invoices]).fallbackPolling = false) := by decide

/-- C4 (amended): in every state reachable from initialization, fallback
polling is active only when all three push channels are down and the
manager is marked disconnected; polling can coexist with a pending
reconnect retry (the transition window), so the claimed "and no retry
pending" conjunct, and the converse direction of the iff, do not hold. -/
theorem fallback_polling_only_when_down :
    ∀ evs : List WSEvent,
      (runWSEvents (initializeWS true initialWSState) evs).fallbackPolling = true →
        (runWSEvents (initializeWS true initialWSState) evs).connInvoices = false
        ∧ (runWSEvents (initializeWS true initialWSState) evs).connPayments = false
        ∧ (runWSEvents (initializeWS true initialWSState) evs).connBalances = false
        ∧ (runWSEvents (initializeWS true initialWSState) evs).connected = false :=
  fun evs => polling_down_run (initializeWS true initialWSState) evs (by decide)

/-- C4 witness: the invariant applied to the concrete trace that turns
fallback polling on. -/
theorem fallback_polling_only_when_down_witness :
    (runWSEvents (initializeWS true initialWSState)
        [.close .invoices, .close .payments, .close .balances]).connInvoices = false
    ∧ (runWSEvents (initializeWS true initialWSState)
        [.close .invoices, .close .payments, .close .balances]).connPayments = false
    ∧ (runWSEvents (initializeWS true initialWSState)
        [.close .invoices, .close .payments, .close .balances]).connBalances = false
    ∧ (runWSEvents (initializeWS true initialWSState)
        [.close .invoices, .close .payments, .close .balances]).connected = false :=
  fallback_polling_only_when_down
    [.close .invoices, .close .payments, .close .balances] (by decide)
